import Mathlib

/-!
Shallow embedding of pgcat's `src/messages.rs` (PostgreSQL wire-protocol
codec): the message encoders, the startup-parameter parser, the MD5
challenge derivation and the frame reader, together with theorems about
them.  Byte streams are modelled as `List Byte`; Rust strings appear as
their byte sequences; fallible operations return explicit result types in
which a Rust panic (out-of-bounds index or arithmetic overflow) is a
distinguished outcome.
-/

set_option maxHeartbeats 1000000
set_option maxRecDepth 8192

/-- A wire byte (Rust `u8`). -/
abbrev Byte := Fin 256

/-- Truncate a natural number to a byte, as Rust byte extraction does. -/
def byteOf (n : Nat) : Byte := ⟨n % 256, Nat.mod_lt n (by decide)⟩

/-- Big-endian 4-byte encoding of a 32-bit signed integer
(`BufMut::put_i32`): the value is reduced mod `2 ^ 32` (two's complement)
and written most-significant byte first. -/
def i32be (n : Int) : List Byte :=
  [byteOf ((n % 4294967296).toNat / 16777216),
   byteOf ((n % 4294967296).toNat / 65536),
   byteOf ((n % 4294967296).toNat / 256),
   byteOf ((n % 4294967296).toNat)]

/-- Decode 4 big-endian bytes as a signed 32-bit integer
(`AsyncReadExt::read_i32`). -/
def i32FromBE (b0 b1 b2 b3 : Byte) : Int :=
  if b0.val * 16777216 + b1.val * 65536 + b2.val * 256 + b3.val < 2147483648 then
    (b0.val * 16777216 + b1.val * 65536 + b2.val * 256 + b3.val : Int)
  else
    (b0.val * 16777216 + b1.val * 65536 + b2.val * 256 + b3.val : Int) - 4294967296

/-- Rust `as usize` cast of an `i32` value on a 64-bit platform:
sign-extension, i.e. reduction mod `2 ^ 64`. -/
def usizeOfI32 (n : Int) : Nat := (n % 18446744073709551616).toNat

/-- Frame written by `auth_ok`: tag `'R'`, length 8, authentication code 0. -/
def auth_ok : List Byte := [82] ++ i32be 8 ++ i32be 0

/-- The bytes of the string `"user"`. -/
def userKey : List Byte := [117, 115, 101, 114]

/-- The bytes of the string `"database"`. -/
def databaseKey : List Byte := [100, 97, 116, 97, 98, 97, 115, 101]

/-- Body of the startup packet built by `startup` before the length prefix
is computed: protocol number 196608, `"user"` and its value, `"database"`
and its value, each null-terminated, then the final null terminator. -/
def startupBody (user database : List Byte) : List Byte :=
  i32be 196608 ++ userKey ++ [0] ++ user ++ [0] ++
    databaseKey ++ [0] ++ database ++ [0] ++ [0]

/-- Full frame written by `startup`: a 4-byte big-endian length equal to the
body length plus 4, followed by the body.  This frame has no tag byte. -/
def startup (user database : List Byte) : List Byte :=
  i32be ((startupBody user database).length + 4) ++ startupBody user database

/-- The token scan of `parse_startup` (outer loop over the buffer, inner
loop consuming bytes up to a null).  `tmp` is the token being accumulated,
in reverse; `acc` holds the pushed tokens, in reverse; empty tokens are
skipped.  `none` models the inner loop calling `get_u8` on an exhausted
buffer, which is a Rust panic: it happens exactly when the input ends in
the middle of an unterminated token. -/
def scanTokens : List Byte → List Byte → List (List Byte) → Option (List (List Byte))
  | [], [], acc => some acc.reverse
  | [], _ :: _, _ => none
  | b :: rest, tmp, acc =>
    if b = 0 then
      scanTokens rest [] (if tmp = [] then acc else tmp.reverse :: acc)
    else
      scanTokens rest (b :: tmp) acc

/-- `HashMap::insert` on an association list: overwrite an existing key in
place, otherwise append the new entry. -/
def mapInsert (m : List (List Byte × List Byte)) (k v : List Byte) :
    List (List Byte × List Byte) :=
  if m.any (fun p => p.1 == k) then
    m.map (fun p => if p.1 == k then (k, v) else p)
  else m ++ [(k, v)]

/-- `HashMap::contains_key` on the association list. -/
def containsKey (m : List (List Byte × List Byte)) (k : List Byte) : Bool :=
  m.any (fun p => p.1 == k)

/-- `HashMap::get` on the association list. -/
def mapLookup (m : List (List Byte × List Byte)) (k : List Byte) : Option (List Byte) :=
  match m with
  | [] => none
  | p :: rest => if p.1 == k then some p.2 else mapLookup rest k

/-- The pairing loop of `parse_startup`: `buf[i]` is a name and `buf[i+1]`
its value, inserted in order.  `none` models the out-of-bounds index
`buf[i + 1]` — a Rust panic — which fires when exactly one token remains. -/
def pairLoop : List (List Byte) → List (List Byte × List Byte) →
    Option (List (List Byte × List Byte))
  | [], acc => some acc
  | [_], _ => none
  | name :: value :: rest, acc => pairLoop rest (mapInsert acc name value)

/-- Outcome of `parse_startup`: a parameter map, `Error::ClientBadStartup`,
or a Rust panic (out-of-bounds buffer access). -/
inductive ParseResult where
  | ok (params : List (List Byte × List Byte))
  | badStartup
  | panicked
deriving DecidableEq

/-- `parse_startup`: scan the null-terminated tokens, apply the source's
guard `buf.len() % 2 != 0 && buf.len() >= 2`, pair the tokens into a map,
and require a `"user"` key. -/
def parse_startup (bytes : List Byte) : ParseResult :=
  match scanTokens bytes [] [] with
  | none => .panicked
  | some buf =>
    if buf.length % 2 ≠ 0 ∧ 2 ≤ buf.length then .badStartup
    else
      match pairLoop buf [] with
      | none => .panicked
      | some result =>
        if containsKey result userKey then .ok result else .badStartup

/-- Outcome of `read_message`: a complete frame; a socket error (EOF or a
short read); the unsigned subtraction `len as usize - 4` underflowing (a
Rust arithmetic-overflow panic); or the buffer allocation
`vec![0u8; len as usize - 4]` panicking with a capacity overflow because
the requested size exceeds `isize::MAX` — which happens before any
payload byte is read. -/
inductive ReadResult where
  | ok (msg : List Byte)
  | socketError
  | underflow
  | capacityOverflow
deriving DecidableEq

/-- `read_message` on a stream modelled as the list of bytes available
before EOF: read one tag byte, a big-endian `i32` length, allocate a
buffer of `len as usize - 4` bytes (underflow and capacity-overflow
panics modelled as their own outcomes), read exactly that many payload
bytes, and return the reassembled frame `tag ++ length ++ payload`. -/
def read_message (input : List Byte) : ReadResult :=
  match input with
  | code :: b0 :: b1 :: b2 :: b3 :: rest =>
    if usizeOfI32 (i32FromBE b0 b1 b2 b3) < 4 then .underflow
    else if 9223372036854775807 < usizeOfI32 (i32FromBE b0 b1 b2 b3) - 4 then
      .capacityOverflow
    else if rest.length < usizeOfI32 (i32FromBE b0 b1 b2 b3) - 4 then .socketError
    else .ok (code :: i32be (i32FromBE b0 b1 b2 b3) ++
      rest.take (usizeOfI32 (i32FromBE b0 b1 b2 b3) - 4))
  | _ => .socketError

/-- Truncation to 32 bits. -/
def m32 (n : Nat) : Nat := n % 4294967296

/-- 32-bit left rotation. -/
def rotl32 (x s : Nat) : Nat := m32 (m32 (x * 2 ^ s) + m32 x / 2 ^ (32 - s))

/-- MD5 mixing function F (round 1). -/
def md5F (b c d : Nat) : Nat := (b &&& c) ||| ((4294967295 ^^^ b) &&& d)

/-- MD5 mixing function G (round 2). -/
def md5G (b c d : Nat) : Nat := (d &&& b) ||| ((4294967295 ^^^ d) &&& c)

/-- MD5 mixing function H (round 3). -/
def md5H (b c d : Nat) : Nat := b ^^^ c ^^^ d

/-- MD5 mixing function I (round 4). -/
def md5I (b c d : Nat) : Nat := c ^^^ (b ||| (4294967295 ^^^ d))

/-- The 64 MD5 sine-derived constants. -/
def md5K : List Nat :=
  [3614090360, 3905402710, 606105819, 3250441966, 4118548399, 1200080426, 2821735955, 4249261313,
   1770035416, 2336552879, 4294925233, 2304563134, 1804603682, 4254626195, 2792965006, 1236535329,
   4129170786, 3225465664, 643717713, 3921069994, 3593408605, 38016083, 3634488961, 3889429448,
   568446438, 3275163606, 4107603335, 1163531501, 2850285829, 4243563512, 1735328473, 2368359562,
   4294588738, 2272392833, 1839030562, 4259657740, 2763975236, 1272893353, 4139469664, 3200236656,
   681279174, 3936430074, 3572445317, 76029189, 3654602809, 3873151461, 530742520, 3299628645,
   4096336452, 1126891415, 2878612391, 4237533241, 1700485571, 2399980690, 4293915773, 2240044497,
   1873313359, 4264355552, 2734768916, 1309151649, 4149444226, 3174756917, 718787259, 3951481745]

/-- The 64 MD5 per-round shift amounts. -/
def md5S : List Nat :=
  [7, 12, 17, 22, 7, 12, 17, 22, 7, 12, 17, 22, 7, 12, 17, 22,
   5, 9, 14, 20, 5, 9, 14, 20, 5, 9, 14, 20, 5, 9, 14, 20,
   4, 11, 16, 23, 4, 11, 16, 23, 4, 11, 16, 23, 4, 11, 16, 23,
   6, 10, 15, 21, 6, 10, 15, 21, 6, 10, 15, 21, 6, 10, 15, 21]

/-- One MD5 round step: `i` is the round index, `M` the 16 message words. -/
def md5Round (M : List Nat) (st : Nat × Nat × Nat × Nat) (i : Nat) : Nat × Nat × Nat × Nat :=
  (st.2.2.2,
   m32 (st.2.1 + rotl32 (m32 ((if i < 16 then md5F st.2.1 st.2.2.1 st.2.2.2
       else if i < 32 then md5G st.2.1 st.2.2.1 st.2.2.2
       else if i < 48 then md5H st.2.1 st.2.2.1 st.2.2.2
       else md5I st.2.1 st.2.2.1 st.2.2.2) + st.1 + md5K.getD i 0 +
       M.getD (if i < 16 then i else if i < 32 then (5 * i + 1) % 16
         else if i < 48 then (3 * i + 5) % 16 else (7 * i) % 16) 0))
     (md5S.getD i 0)),
   st.2.1, st.2.2.1)

/-- The 16 little-endian message words of one 64-byte block. -/
def blockWords : List Byte → List Nat
  | b0 :: b1 :: b2 :: b3 :: rest =>
    (b0.val + 256 * b1.val + 65536 * b2.val + 16777216 * b3.val) :: blockWords rest
  | _ => []

/-- The MD5 compression function over one 64-byte block: 64 round steps,
then the feed-forward addition of the incoming state. -/
def md5Compress (st : Nat × Nat × Nat × Nat) (block : List Byte) : Nat × Nat × Nat × Nat :=
  (m32 (st.1 + ((List.range 64).foldl (md5Round (blockWords block)) st).1),
   m32 (st.2.1 + ((List.range 64).foldl (md5Round (blockWords block)) st).2.1),
   m32 (st.2.2.1 + ((List.range 64).foldl (md5Round (blockWords block)) st).2.2.1),
   m32 (st.2.2.2 + ((List.range 64).foldl (md5Round (blockWords block)) st).2.2.2))

/-- MD5 padding: a `0x80` byte, zero bytes up to 56 mod 64, then the
original length in bits as an 8-byte little-endian integer. -/
def md5Pad (msg : List Byte) : List Byte :=
  msg ++ [128] ++ List.replicate ((119 - msg.length % 64) % 64) 0 ++
    [byteOf (msg.length * 8), byteOf (msg.length * 8 / 256),
     byteOf (msg.length * 8 / 65536), byteOf (msg.length * 8 / 16777216),
     byteOf (msg.length * 8 / 4294967296), byteOf (msg.length * 8 / 1099511627776),
     byteOf (msg.length * 8 / 281474976710656), byteOf (msg.length * 8 / 72057594037927936)]

/-- Run the MD5 compression over successive 64-byte blocks. -/
def md5Blocks (st : Nat × Nat × Nat × Nat) (bs : List Byte) : Nat × Nat × Nat × Nat :=
  if _h : 64 ≤ bs.length then md5Blocks (md5Compress st (bs.take 64)) (bs.drop 64) else st
termination_by bs.length
decreasing_by simp only [List.length_drop]; omega

/-- Little-endian serialization of one 32-bit state word into 4 bytes. -/
def wordLE (w : Nat) : List Byte :=
  [byteOf w, byteOf (w / 256), byteOf (w / 65536), byteOf (w / 16777216)]

/-- The 16-byte MD5 digest of a byte string. -/
def md5 (msg : List Byte) : List Byte :=
  wordLE (md5Blocks (1732584193, 4023233417, 2562383102, 271733878) (md5Pad msg)).1 ++
  wordLE (md5Blocks (1732584193, 4023233417, 2562383102, 271733878) (md5Pad msg)).2.1 ++
  wordLE (md5Blocks (1732584193, 4023233417, 2562383102, 271733878) (md5Pad msg)).2.2.1 ++
  wordLE (md5Blocks (1732584193, 4023233417, 2562383102, 271733878) (md5Pad msg)).2.2.2

/-- The lowercase hexadecimal digit character for `n`. -/
def hexDigit (n : Nat) : Byte := if n < 10 then byteOf (48 + n) else byteOf (87 + n)

/-- The two lowercase hexadecimal characters of one byte. -/
def hexByte (b : Byte) : List Byte := [hexDigit (b.val / 16), hexDigit (b.val % 16)]

/-- Lowercase hexadecimal rendering of a byte string, as Rust's
lower-hex formatting of an MD5 digest produces. -/
def hexBytes (bs : List Byte) : List Byte := (bs.map hexByte).flatten

/-- The challenge string computed inside `md5_password`: a first MD5 pass
over password then user, rendered in lowercase hex; a second MD5 pass over
that hex string then the salt, rendered in lowercase hex; all behind the
literal prefix `"md5"`. -/
def md5Challenge (user password salt : List Byte) : List Byte :=
  [109, 100, 53] ++ hexBytes (md5 (hexBytes (md5 (password ++ user)) ++ salt))

/-- Frame written by `md5_password`: tag `'p'`, a big-endian length equal to
the null-terminated challenge's length plus 4, then the challenge string
and its null terminator. -/
def md5_password (user password salt : List Byte) : List Byte :=
  [112] ++ i32be ((md5Challenge user password salt ++ [0]).length + 4) ++
    (md5Challenge user password salt ++ [0])

/-- The structured notice fields built by `shutting_down` into `notice`:
severity `'S'` and `'V'` fields "FATAL", code field `'C'` "57P01", each
null-terminated, then the message field `'M'` without a terminator. -/
def shuttingDownNotice : List Byte :=
  [83] ++ [70, 65, 84, 65, 76, 0] ++
  [86] ++ [70, 65, 84, 65, 76, 0] ++
  [67] ++ [53, 55, 80, 48, 49, 0] ++
  [77] ++ [116, 101, 114, 109, 105, 110, 97, 116, 105, 110, 103, 32, 99, 111, 110,
           110, 101, 99, 116, 105, 111, 110, 32, 100, 117, 101, 32, 116, 111, 32,
           97, 100, 109, 105, 110, 105, 115, 116, 114, 97, 116, 111, 114, 32, 99,
           111, 109, 109, 97, 110, 100]

/-- Frame written by `shutting_down`: the tag `'N'` is pushed into `res`,
then the length field is computed from `res.len() + 4` — at which point
`res` holds only the tag byte, so the value written is 5 — and finally the
notice body is appended. -/
def shutting_down : List Byte :=
  [78] ++ i32be (([78] : List Byte).length + 4) ++ shuttingDownNotice

/-- `c` is an ASCII lowercase hexadecimal digit: one of `'0'`..`'9'` or
`'a'`..`'f'`. -/
def isLowerHexDigit (c : Byte) : Bool :=
  decide ((48 ≤ c.val ∧ c.val ≤ 57) ∨ (97 ≤ c.val ∧ c.val ≤ 102))

theorem byteOf_val (n : Nat) : (byteOf n).val = n % 256 := rfl

theorem i32be_length (n : Int) : (i32be n).length = 4 := rfl

/-- Decoding undoes encoding on the signed 32-bit range. -/
theorem i32FromBE_i32be (n : Int) (h1 : -2147483648 ≤ n) (h2 : n < 2147483648)
    (b0 b1 b2 b3 : Byte) (h : i32be n = [b0, b1, b2, b3]) :
    i32FromBE b0 b1 b2 b3 = n := by
  simp only [i32be, List.cons.injEq, and_true] at h
  obtain ⟨e0, e1, e2, e3⟩ := h
  subst e0; subst e1; subst e2; subst e3
  simp only [i32FromBE, byteOf_val]
  split <;> omega

/-- The `as usize` cast is the identity on nonnegative `i32` values. -/
theorem usizeOfI32_nonneg (n : Int) (h0 : 0 ≤ n) (h : n < 2147483648) :
    usizeOfI32 n = n.toNat := by
  unfold usizeOfI32
  omega

theorem hexDigit_lower (n : Nat) (h : n < 16) : isLowerHexDigit (hexDigit n) = true := by
  unfold hexDigit isLowerHexDigit byteOf
  split <;> simp only [decide_eq_true_eq] <;> omega

theorem hexByte_lower (b : Byte) : (hexByte b).all isLowerHexDigit = true := by
  have hb := b.isLt
  have h1 : b.val / 16 < 16 := by omega
  have h2 : b.val % 16 < 16 := by omega
  simp [hexByte, hexDigit_lower _ h1, hexDigit_lower _ h2]

theorem hexBytes_cons (b : Byte) (rest : List Byte) :
    hexBytes (b :: rest) = hexByte b ++ hexBytes rest := rfl

theorem hexBytes_all_lower (bs : List Byte) : (hexBytes bs).all isLowerHexDigit = true := by
  induction bs with
  | nil => rfl
  | cons b rest ih => rw [hexBytes_cons, List.all_append, hexByte_lower b, ih]; rfl

theorem hexBytes_length (bs : List Byte) : (hexBytes bs).length = 2 * bs.length := by
  induction bs with
  | nil => rfl
  | cons b rest ih =>
    rw [hexBytes_cons, List.length_append, ih]
    simp [hexByte]
    omega

theorem md5_length (msg : List Byte) : (md5 msg).length = 16 := by
  simp [md5, wordLE]

theorem scanTokens_cons_ne (b : Byte) (rest tmp : List Byte) (acc : List (List Byte))
    (hb : b ≠ 0) : scanTokens (b :: rest) tmp acc = scanTokens rest (b :: tmp) acc := by
  simp [scanTokens, hb]

theorem scanTokens_cons_zero (rest tmp : List Byte) (acc : List (List Byte)) :
    scanTokens (0 :: rest) tmp acc =
      scanTokens rest [] (if tmp = [] then acc else tmp.reverse :: acc) := by
  simp [scanTokens]

theorem scanTokens_append_ne (tok : List Byte) (rest tmp : List Byte)
    (acc : List (List Byte)) (h : ∀ b ∈ tok, b ≠ 0) :
    scanTokens (tok ++ rest) tmp acc = scanTokens rest (tok.reverse ++ tmp) acc := by
  induction tok generalizing tmp with
  | nil => simp
  | cons b tok ih =>
    rw [List.cons_append, scanTokens_cons_ne b _ _ _ (h b (List.mem_cons_self b tok))]
    rw [ih _ (fun x hx => h x (List.mem_cons_of_mem b hx))]
    simp [List.reverse_cons, List.append_assoc]

theorem scanTokens_ne_none_iff (bytes : List Byte) :
    ∀ (tmp : List Byte) (acc : List (List Byte)),
    scanTokens bytes tmp acc ≠ none ↔ ((bytes = [] ∧ tmp = []) ∨ bytes.getLast? = some 0) := by
  induction bytes with
  | nil =>
    intro tmp acc
    cases tmp with
    | nil => simp [scanTokens]
    | cons b t => simp [scanTokens]
  | cons b rest ih =>
    intro tmp acc
    by_cases hb : b = 0
    · subst hb
      rw [scanTokens_cons_zero, ih]
      cases rest with
      | nil => simp
      | cons c cs => simp [List.getLast?_cons_cons]
    · rw [scanTokens_cons_ne b rest tmp acc hb, ih]
      cases rest with
      | nil => simp [hb]
      | cons c cs => simp [List.getLast?_cons_cons]

/-- C9: `auth_ok` writes exactly the nine bytes
0x52 00 00 00 08 00 00 00 00 — tag `'R'`, big-endian length 8, code 0 —
and nothing else. -/
theorem auth_ok_bytes : auth_ok = [82, 0, 0, 0, 8, 0, 0, 0, 0] := by decide

/-- C3 (code bug): in the frame produced by `shutting_down` the length
field written after the `'N'` tag is the big-endian encoding of 5, while
73 bytes (the S, V, C and M notice fields) follow the length field, so the
documented rule "bytes following the length field plus 4" — which demands
77 — is violated: the source computes the field from `res.len() + 4` when
`res` still holds nothing but the tag byte. -/
theorem shutting_down_length_field_bug :
    (shutting_down.drop 1).take 4 = i32be 5 ∧
    (shutting_down.drop 5).length = 73 ∧
    (5 : Int) ≠ 73 + 4 := by decide

/-- C2 (code bug): on the two-byte input "a\0" the scan yields the single
token "a"; the guard `buf.len() % 2 != 0 && buf.len() >= 2` lets the odd
count 1 through, and the pairing loop then hits the out-of-bounds index
`buf[1]` — a panic, modelled as `panicked` — instead of returning
`Error::ClientBadStartup` as the spec requires for every odd token count. -/
theorem parse_startup_single_token_panics :
    scanTokens [97, 0] [] [] = some [[97]] ∧
    parse_startup [97, 0] = .panicked ∧
    parse_startup [97, 0] ≠ .badStartup := by decide

/-- C1 counterexample: for the empty user and database strings the empty
value tokens are skipped by the scan, so the parameter section of the
startup frame for `user = ""`, `database = ""` parses to the one-entry
mapping sending "user" to the string "database" — not to a two-entry
mapping with empty values as the claim states. -/
theorem startup_roundtrip_empty_counterexample :
    parse_startup ((startup [] []).drop 8) = .ok [(userKey, databaseKey)] ∧
    mapLookup [(userKey, databaseKey)] userKey ≠ some [] := by decide

/-- C6 counterexample: the length bytes FF FF FF FF decode to -1, which is
below 4, yet the subtraction `len as usize - 4` does not underflow: the
`as usize` cast sign-extends -1 to `2 ^ 64 - 1` first, so the subtraction
yields `2 ^ 64 - 5` and the buffer allocation panics with a capacity
overflow (the requested size exceeds `isize::MAX`) before any payload
byte is read. -/
theorem read_message_negative_length_counterexample :
    i32FromBE 255 255 255 255 = -1 ∧
    read_message [82, 255, 255, 255, 255] = .capacityOverflow ∧
    read_message [82, 255, 255, 255, 255] ≠ .underflow := by decide

/-- C4: for every password, user and salt, the challenge string is the
literal "md5" (bytes 109, 100, 53) followed by the lowercase hexadecimal
rendering of MD5(hex(MD5(password ++ user)) ++ salt): exactly 32 lowercase
hex characters, 35 bytes in all.  Determinism — equal inputs give equal
output — is immediate because `md5Challenge` is a pure function. -/
theorem md5Challenge_format (user password salt : List Byte) :
    ∃ h2 : List Byte,
      md5Challenge user password salt = [109, 100, 53] ++ h2 ∧
      h2 = hexBytes (md5 (hexBytes (md5 (password ++ user)) ++ salt)) ∧
      h2.length = 32 ∧
      h2.all isLowerHexDigit = true ∧
      (md5Challenge user password salt).length = 35 := by
  refine ⟨hexBytes (md5 (hexBytes (md5 (password ++ user)) ++ salt)), rfl, rfl, ?_,
    hexBytes_all_lower _, ?_⟩
  · rw [hexBytes_length, md5_length]
  · simp [md5Challenge, hexBytes_length, md5_length]

/-- C8: the frame written by `md5_password` is the tag `'p'`, a big-endian
length field equal to the challenge string's length plus 1 (for the
terminator) plus 4, the challenge string, and one null terminator; since
the challenge is always 35 bytes the whole frame is 41 bytes. -/
theorem md5_password_frame (user password salt : List Byte) :
    md5_password user password salt =
      [112] ++ i32be (((md5Challenge user password salt).length : Int) + 1 + 4) ++
        (md5Challenge user password salt ++ [0]) ∧
    (md5_password user password salt).length = 41 := by
  have h35 : (md5Challenge user password salt).length = 35 := by
    simp [md5Challenge, hexBytes_length, md5_length]
  constructor
  · have harg : (((md5Challenge user password salt ++ [0]).length : Nat) : Int) + 4 =
        ((md5Challenge user password salt).length : Int) + 1 + 4 := by
      push_cast [List.length_append, List.length_cons, List.length_nil]
      ring
    rw [md5_password, harg]
  · simp [md5_password, i32be, List.length_append, h35]

/-- C5: for a frame whose big-endian length field decodes to `N ≥ 4` and
whose remaining bytes are available on the stream, `read_message` returns
a buffer of exactly `N + 1` bytes: the tag byte, the 4-byte length field
and an `N - 4`-byte payload, in that order. -/
theorem read_message_frame_size (tag : Byte) (N : Int) (payload extra : List Byte)
    (h4 : 4 ≤ N) (h31 : N < 2147483648) (hp : payload.length = N.toNat - 4) :
    read_message (tag :: (i32be N ++ (payload ++ extra))) =
      .ok (tag :: (i32be N ++ payload)) ∧
    (tag :: (i32be N ++ payload)).length = N.toNat + 1 ∧
    (tag :: (i32be N ++ payload)).drop 5 = payload := by
  have hdec : i32FromBE (byteOf ((N % 4294967296).toNat / 16777216))
      (byteOf ((N % 4294967296).toNat / 65536)) (byteOf ((N % 4294967296).toNat / 256))
      (byteOf ((N % 4294967296).toNat)) = N := i32FromBE_i32be N (by omega) h31 _ _ _ _ rfl
  have husize : usizeOfI32 N = N.toNat := usizeOfI32_nonneg N (by omega) h31
  refine ⟨?_, ?_, ?_⟩
  · simp only [i32be, List.cons_append, List.nil_append, read_message, hdec, husize]
    rw [if_neg (by omega), if_neg (by omega),
      if_neg (by simp only [List.length_append]; omega)]
    rw [show N.toNat - 4 = payload.length from by omega, List.take_left]
  · simp only [List.length_cons, List.length_append, i32be_length, hp]
    omega
  · have e : tag :: (i32be N ++ payload) = (tag :: i32be N) ++ payload := rfl
    rw [e, List.drop_left' (by simp [i32be_length])]

/-- Witness for C5: tag 'R', length field 5, payload of one byte. -/
theorem read_message_frame_size_witness :
    read_message ((82 : Byte) :: (i32be 5 ++ ([7] ++ []))) =
      .ok ((82 : Byte) :: (i32be 5 ++ [7])) ∧
    ((82 : Byte) :: (i32be 5 ++ [7])).length = (5 : Int).toNat + 1 ∧
    ((82 : Byte) :: (i32be 5 ++ [7])).drop 5 = [7] :=
  read_message_frame_size 82 5 [7] [] (by norm_num) (by norm_num) (by decide)

/-- C6 (amended): `read_message` computes the payload size as
`len as usize - 4` with no guard — for a length field decoding to
`0 ≤ N < 4` the unsigned subtraction underflows, and no malformed-frame
error is returned; for `N ≥ 4` it never underflows; and for a negative
length field the subtraction does not underflow either: the `as usize`
cast wraps to a value above `2 ^ 63` first, and the payload buffer
allocation panics with a capacity overflow before any read occurs. -/
theorem read_message_length_underflow (tag : Byte) (N : Int) (rest : List Byte)
    (h0 : -2147483648 ≤ N) (h31 : N < 2147483648) :
    (0 ≤ N → N < 4 → read_message (tag :: (i32be N ++ rest)) = .underflow) ∧
    (4 ≤ N → read_message (tag :: (i32be N ++ rest)) ≠ .underflow) ∧
    (N < 0 → read_message (tag :: (i32be N ++ rest)) = .capacityOverflow) := by
  have hdec : i32FromBE (byteOf ((N % 4294967296).toNat / 16777216))
      (byteOf ((N % 4294967296).toNat / 65536)) (byteOf ((N % 4294967296).toNat / 256))
      (byteOf ((N % 4294967296).toNat)) = N := i32FromBE_i32be N h0 h31 _ _ _ _ rfl
  refine ⟨?_, ?_, ?_⟩
  · intro hpos hlt
    have husize : usizeOfI32 N = N.toNat := usizeOfI32_nonneg N hpos h31
    simp only [i32be, List.cons_append, List.nil_append, read_message, hdec, husize]
    rw [if_pos (by omega)]
  · intro hge
    have husize : usizeOfI32 N = N.toNat := usizeOfI32_nonneg N (by omega) h31
    simp only [i32be, List.cons_append, List.nil_append, read_message, hdec, husize]
    rw [if_neg (by omega)]
    split
    · simp
    · split <;> simp
  · intro hneg
    have hbig : 18446744071562067968 ≤ usizeOfI32 N := by
      unfold usizeOfI32
      omega
    simp only [i32be, List.cons_append, List.nil_append, read_message, hdec]
    rw [if_neg (by omega), if_pos (by omega)]

/-- Witness for C6: a length field of 2 makes the subtraction underflow. -/
theorem read_message_length_underflow_witness :
    read_message ((82 : Byte) :: (i32be 2 ++ [])) = .underflow :=
  (read_message_length_underflow 82 2 [] (by norm_num) (by norm_num)).1
    (by norm_num) (by norm_num)

/-- C7: whenever the byte scan succeeds with an even number of tokens
(including zero) and the pairwise mapping built from them contains no
"user" key, `parse_startup` returns `Error::ClientBadStartup`. -/
theorem parse_startup_missing_user (bytes : List Byte) (toks : List (List Byte))
    (m : List (List Byte × List Byte))
    (hscan : scanTokens bytes [] [] = some toks)
    (heven : toks.length % 2 = 0)
    (hpair : pairLoop toks [] = some m)
    (huser : containsKey m userKey = false) :
    parse_startup bytes = .badStartup := by
  simp only [parse_startup, hscan]
  rw [if_neg (by omega)]
  simp only [hpair]
  simp [huser]

/-- Witness for C7: two tokens "a", "b" — an even count, no "user" key. -/
theorem parse_startup_missing_user_witness :
    parse_startup [97, 0, 98, 0] = .badStartup :=
  parse_startup_missing_user [97, 0, 98, 0] [[97], [98]] [([97], [98])]
    (by decide) (by decide) (by decide) (by decide)

/-- C1 (amended): for every pair of nonempty ASCII strings without
embedded null bytes, encoding a startup request with `startup` and
parsing the bytes after the protocol-version field with `parse_startup`
yields Ok of exactly the two entries "user" ↦ user and
"database" ↦ database.  (The amendment adds nonemptiness: for an empty
user or database string the scan skips the empty value token and the
claim fails — see the counterexample.) -/
theorem startup_parse_roundtrip (user database : List Byte)
    (hu0 : ∀ b ∈ user, b ≠ 0) (hd0 : ∀ b ∈ database, b ≠ 0)
    (hua : ∀ b ∈ user, b.val < 128) (hda : ∀ b ∈ database, b.val < 128)
    (hune : user ≠ []) (hdne : database ≠ []) :
    parse_startup ((startup user database).drop 8) =
      .ok [(userKey, user), (databaseKey, database)] := by
  have hurev : user.reverse ≠ [] := fun h => hune (by simpa using h)
  have hdrev : database.reverse ≠ [] := fun h => hdne (by simpa using h)
  have e0 : startup user database =
      (i32be ((startupBody user database).length + 4) ++ i32be 196608) ++
        (userKey ++ ((0 : Byte) :: (user ++ ((0 : Byte) :: (databaseKey ++
          ((0 : Byte) :: (database ++ [0, 0]))))))) := by
    simp [startup, startupBody, List.append_assoc, List.singleton_append]
  have e1 : (startup user database).drop 8 =
      userKey ++ ((0 : Byte) :: (user ++ ((0 : Byte) :: (databaseKey ++
        ((0 : Byte) :: (database ++ [0, 0])))))) := by
    rw [e0, List.drop_left' (by simp [i32be_length])]
  have hscan : scanTokens ((startup user database).drop 8) [] [] =
      some [userKey, user, databaseKey, database] := by
    rw [e1]
    rw [scanTokens_append_ne userKey _ [] [] (by decide)]
    rw [List.append_nil, scanTokens_cons_zero]
    rw [if_neg (by decide), List.reverse_reverse]
    rw [scanTokens_append_ne user _ [] [userKey] hu0]
    rw [List.append_nil, scanTokens_cons_zero]
    rw [if_neg hurev, List.reverse_reverse]
    rw [scanTokens_append_ne databaseKey _ [] [user, userKey] (by decide)]
    rw [List.append_nil, scanTokens_cons_zero]
    rw [if_neg (by decide), List.reverse_reverse]
    rw [scanTokens_append_ne database _ [] [databaseKey, user, userKey] hd0]
    rw [List.append_nil, scanTokens_cons_zero]
    rw [if_neg hdrev, List.reverse_reverse]
    rfl
  have hkey1 : (userKey == databaseKey) = false := by decide
  have hkey3 : (userKey == userKey) = true := by decide
  simp only [parse_startup, hscan]
  rw [if_neg (by norm_num)]
  simp [pairLoop, mapInsert, containsKey, hkey1, hkey3]

/-- Witness for C1 at user = "a", database = "b". -/
theorem startup_parse_roundtrip_witness :
    parse_startup ((startup [97] [98]).drop 8) =
      .ok [(userKey, [97]), (databaseKey, [98])] :=
  startup_parse_roundtrip [97] [98] (by decide) (by decide) (by decide) (by decide)
    (by decide) (by decide)

/-- C10: the byte scan of `parse_startup` is total exactly on inputs that
are empty or whose final byte is 0x00; for any input whose last byte is
nonzero (an unterminated trailing token) the inner loop reads past the end
of the buffer — modelled as the scan returning `none` — and
`parse_startup` panics instead of returning a bad-startup error. -/
theorem parse_startup_scan_totality (bytes : List Byte) :
    (scanTokens bytes [] [] ≠ none ↔ (bytes = [] ∨ bytes.getLast? = some 0)) ∧
    (∀ b : Byte, bytes.getLast? = some b → b ≠ 0 →
      scanTokens bytes [] [] = none ∧ parse_startup bytes = .panicked) := by
  have h := scanTokens_ne_none_iff bytes [] []
  constructor
  · simpa using h
  · intro b hb hb0
    have hnil : bytes ≠ [] := by
      intro he
      rw [he] at hb
      simp at hb
    have hnone : scanTokens bytes [] [] = none := by
      by_contra hne
      rcases h.mp hne with h' | h'
      · exact hnil h'.1
      · rw [hb] at h'
        exact hb0 (Option.some.inj h')
    refine ⟨hnone, ?_⟩
    simp only [parse_startup, hnone]

/-- Witness for C10: the single unterminated byte "a". -/
theorem parse_startup_scan_totality_witness :
    scanTokens [97] [] [] = none ∧ parse_startup [97] = .panicked :=
  (parse_startup_scan_totality [97]).2 97 (by decide) (by decide)
